import Mathlib

/-
Verification of the storage-driver conformance harness
(docs/storage/driver/testsuites/testsuites.go) of thewolt/distribution.

The harness source defines the test scenarios, the fixed valid/invalid path
sets, the teardown invariant, the pseudo-random content generators and the
bounded random reader.  The StorageDriver implementations themselves are not
part of this source tree; where a claim depends on driver behaviour, the
driver is modelled from the specification's Storage Driver Contract (spec
sections 4.1, 4.2), and those definitions carry a doc comment starting with
"Modelled from the spec:".  Bytes are modelled as natural numbers, contents
as lists of bytes, and error messages as lists of characters.
-/

namespace DistDriver

/-- Modelled from the spec: a valid path begins with a slash (sections 3, 4.1). -/
def startsWithSlash : List Char → Bool
  | '/' :: _ => true
  | _ => false

/-- Modelled from the spec: detects two consecutive slashes, which the path
grammar forbids (section 4.1). -/
def hasDoubleSlash : List Char → Bool
  | '/' :: '/' :: _ => true
  | _ :: rest => hasDoubleSlash rest
  | [] => false

/-- Modelled from the spec: the Path Grammar Validator (section 4.1).  A path is
valid iff it is non-empty, starts with a slash, is not exactly the bare root,
contains no consecutive slashes and has no trailing slash.  Non-emptiness and
the leading slash are enforced by `startsWithSlash`; the bare root is rejected
by the trailing-slash test. -/
def isValidPath (p : String) : Bool :=
  startsWithSlash p.data && !(p.data.getLast? == some '/') && !hasDoubleSlash p.data

/-- Find the content stored at a path in the association-list store. -/
def lookupStore : List (String × List Nat) → String → Option (List Nat)
  | [], _ => none
  | (q, c) :: rest, p => if q = p then some c else lookupStore rest p

/-- Remove every binding for a path from the store. -/
def eraseStore : List (String × List Nat) → String → List (String × List Nat)
  | [], _ => []
  | (q, c) :: rest, p => if q = p then eraseStore rest p else (q, c) :: eraseStore rest p

/-- Modelled from the spec: the closed error taxonomy of the Storage Driver
Contract (sections 4.2, 7); every error carries the driver's identifying name. -/
inductive DriverError where
  | invalidPath (driverName path : String)
  | pathNotFound (driverName path : String)
  | invalidOffset (driverName path : String) (offset : Int)
  deriving DecidableEq

/-- Modelled from the spec: every constructed error's textual message includes
the driver's identifying name (sections 4.2, 6).  Messages are character lists. -/
def DriverError.message : DriverError → List Char
  | .invalidPath n p => n.data ++ (": invalid path: " ++ p).data
  | .pathNotFound n p => n.data ++ (": path not found: " ++ p).data
  | .invalidOffset n p _ => n.data ++ (": invalid offset for path: " ++ p).data

/-- The path carried by an error (every taxonomy member carries one). -/
def DriverError.errPath : DriverError → String
  | .invalidPath _ p => p
  | .pathNotFound _ p => p
  | .invalidOffset _ p _ => p

/-- The offset carried by an error, when it is an invalid-offset error. -/
def DriverError.errOffset : DriverError → Option Int
  | .invalidOffset _ _ off => some off
  | _ => none

/-- Whether `sub` occurs at the very front of `l`, character by character. -/
def leadsWith : List Char → List Char → Bool
  | [], _ => true
  | _ :: _, [] => false
  | a :: as, b :: bs => (a == b) && leadsWith as bs

/-- Whether `sub` occurs contiguously anywhere inside the second list; this is
the model of the harness's `strings.Contains` assertions on error messages. -/
def hasSub (sub : List Char) : List Char → Bool
  | [] => leadsWith sub []
  | c :: rest => leadsWith sub (c :: rest) || hasSub sub rest

/-- Modelled from the spec: the metadata snapshot produced by Stat (section 3).
The modification timestamp is outside this embedding. -/
structure FileInfo where
  path : String
  size : Nat
  isDir : Bool
  deriving DecidableEq

/-- Modelled from the spec: a driver instance under test, with its stable
identifying name (section 6) and its stored contents. -/
structure DriverState where
  name : String
  store : List (String × List Nat)
  deriving DecidableEq

/-- Replace (or create) the content bound to a path. -/
def withContent (s : DriverState) (p : String) (c : List Nat) : DriverState :=
  { s with store := (p, c) :: eraseStore s.store p }

/-- Modelled from the spec: PutContent validates the path and then atomically
replaces the entire content at it (sections 4.1, 4.2). -/
def PutContent (s : DriverState) (p : String) (c : List Nat) :
    Except DriverError DriverState :=
  if isValidPath p then .ok (withContent s p c)
  else .error (.invalidPath s.name p)

/-- Modelled from the spec: GetContent validates the path and reads the full
current content (sections 4.1, 4.2). -/
def GetContent (s : DriverState) (p : String) : Except DriverError (List Nat) :=
  if isValidPath p then
    match lookupStore s.store p with
    | some c => .ok c
    | none => .error (.pathNotFound s.name p)
  else .error (.invalidPath s.name p)

/-- Whether some stored content path lies strictly below `p`, making `p` a
directory in the structural sense of the spec (section 3). -/
def hasChildUnder (st : List (String × List Nat)) (p : String) : Bool :=
  st.any (fun e => leadsWith (p.data ++ ['/']) e.1.data)

/-- Modelled from the spec: Stat validates the path, then returns metadata for
existing content or for a structural directory, and fails with path-not-found
otherwise (sections 4.1, 4.2). -/
def Stat (s : DriverState) (p : String) : Except DriverError FileInfo :=
  if isValidPath p then
    match lookupStore s.store p with
    | some c => .ok ⟨p, c.length, false⟩
    | none =>
      if hasChildUnder s.store p then .ok ⟨p, 0, true⟩
      else .error (.pathNotFound s.name p)
  else .error (.invalidPath s.name p)

/-- Modelled from the spec: the observable result of writing `chunk` at byte
offset `off` into existing content `old` — the gap between the old end and the
offset is filled with zero bytes, overlapped bytes are overwritten, and old
bytes beyond the new write's end are preserved (sections 3, 4.2). -/
def writeAt (old : List Nat) (off : Nat) (chunk : List Nat) : List Nat :=
  let padded := old ++ List.replicate (off - old.length) 0
  padded.take off ++ chunk ++ padded.drop (off + chunk.length)

/-- Modelled from the spec: WriteStream rejects a negative offset before any
other check, validates the path, then writes the chunk at the offset and
reports the number of bytes consumed (section 4.2). -/
def WriteStream (s : DriverState) (p : String) (offset : Int) (chunk : List Nat) :
    Except DriverError (Nat × DriverState) :=
  if offset < 0 then .error (.invalidOffset s.name p offset)
  else if isValidPath p then
    .ok (chunk.length, withContent s p (writeAt ((lookupStore s.store p).getD []) offset.toNat chunk))
  else .error (.invalidPath s.name p)

/-- Modelled from the spec: ReadStream rejects a negative offset before any
other check — regardless of whether the path exists — validates the path, and
otherwise returns the byte stream starting at the offset, modelled as the
remaining byte list (section 4.2). -/
def ReadStream (s : DriverState) (p : String) (offset : Int) :
    Except DriverError (List Nat) :=
  if offset < 0 then .error (.invalidOffset s.name p offset)
  else if isValidPath p then
    match lookupStore s.store p with
    | some c => .ok (c.drop offset.toNat)
    | none => .error (.pathNotFound s.name p)
  else .error (.invalidPath s.name p)

/-- Modelled from the spec: one Read call on a byte stream with a buffer of
size `b`: it yields the next `min b remaining` bytes, the end-of-stream flag
(signalled here together with the final bytes, one of the two tolerated
behaviours), and the rest of the stream (section 4.2). -/
def streamRead (rem : List Nat) (b : Nat) : List Nat × Bool × List Nat :=
  (rem.take b, (rem.drop b).isEmpty, rem.drop b)

/-- Modelled from the spec: Move validates both paths, fails with
path-not-found when the source holds no content — leaving the state untouched —
and otherwise relocates the source content onto the destination, fully
replacing any previous destination content (sections 4.1, 4.2).  The returned
state is the state after the call, unchanged on error. -/
def Move (s : DriverState) (src dst : String) :
    Except DriverError Unit × DriverState :=
  if isValidPath src then
    if isValidPath dst then
      match lookupStore s.store src with
      | none => (.error (.pathNotFound s.name src), s)
      | some c => (.ok (), withContent ⟨s.name, eraseStore s.store src⟩ dst c)
    else (.error (.invalidPath s.name dst), s)
  else (.error (.invalidPath s.name src), s)

/-- The fixed set of valid paths exercised by TestValidPaths in the harness
source (testsuites.go lines 103-119). -/
def validFiles : List String :=
  ["/a",
   "/2",
   "/aa",
   "/a.a",
   "/0-9/abcdefg",
   "/abcdefg/z.75",
   "/abc/1.2.3.4.5-6_zyx/123.z/4",
   "/docker/docker-registry",
   "/123.abc",
   "/abc./abc",
   "/.abc",
   "/a--b",
   "/a-.b",
   "/_.abc",
   "/Docker/docker-registry",
   "/Abc/Cba"]

/-- The fixed set of invalid paths exercised by TestInvalidPaths in the harness
source (testsuites.go lines 136-142). -/
def invalidFiles : List String :=
  ["", "/", "abc", "123.abc", "//bcd", "/abc_123/"]

theorem leadsWith_self_append (xs ys : List Char) : leadsWith xs (xs ++ ys) = true := by
  induction xs with
  | nil => rfl
  | cons a as ih => simp [leadsWith, ih]

theorem hasSub_of_leads (sub msg : List Char) (h : leadsWith sub msg = true) :
    hasSub sub msg = true := by
  cases msg with
  | nil => simpa [hasSub] using h
  | cons c rest => simp [hasSub, h]

theorem hasSub_self_append (xs ys : List Char) : hasSub xs (xs ++ ys) = true :=
  hasSub_of_leads _ _ (leadsWith_self_append xs ys)

/-- The driver name carried by an error. -/
def DriverError.errName : DriverError → String
  | .invalidPath n _ => n
  | .pathNotFound n _ => n
  | .invalidOffset n _ _ => n

/-- The driver name stands at the front of every modelled error message, hence
the message contains it. -/
theorem name_in_message (e : DriverError) : hasSub e.errName.data e.message = true := by
  cases e with
  | invalidPath n p =>
    exact hasSub_of_leads _ _
      (by simpa [DriverError.message, DriverError.errName] using
        leadsWith_self_append n.data (": invalid path: " ++ p).data)
  | pathNotFound n p =>
    exact hasSub_of_leads _ _
      (by simpa [DriverError.message, DriverError.errName] using
        leadsWith_self_append n.data (": path not found: " ++ p).data)
  | invalidOffset n p off =>
    exact hasSub_of_leads _ _
      (by simpa [DriverError.message, DriverError.errName] using
        leadsWith_self_append n.data (": invalid offset for path: " ++ p).data)

/-- Claim C1: every path in the harness's fixed valid-path set accepts any byte
content: PutContent succeeds and a subsequent GetContent returns exactly the
written bytes. -/
theorem valid_paths_roundtrip (p : String) (hp : p ∈ validFiles)
    (s : DriverState) (c : List Nat) :
    PutContent s p c = .ok (withContent s p c) ∧
    GetContent (withContent s p c) p = .ok c := by
  have hall : validFiles.all (fun q => isValidPath q) = true := by decide
  have hv : isValidPath p = true := by
    simpa using List.all_eq_true.mp hall p hp
  refine ⟨by simp [PutContent, hv], ?_⟩
  simp [GetContent, hv, withContent, lookupStore]

/-- Witness for C1 at the concrete path "/a" with content [1, 2]. -/
theorem valid_paths_roundtrip_witness :
    PutContent ⟨"inmemory", []⟩ "/a" [1, 2] = .ok (withContent ⟨"inmemory", []⟩ "/a" [1, 2]) ∧
    GetContent (withContent ⟨"inmemory", []⟩ "/a" [1, 2]) "/a" = .ok [1, 2] :=
  valid_paths_roundtrip "/a" (by decide) ⟨"inmemory", []⟩ [1, 2]

/-- Claim C2: every path in the harness's fixed invalid-path set is rejected by
PutContent, GetContent and Stat with an invalid-path error whose message
contains the driver's name. -/
theorem invalid_paths_rejected (p : String) (hp : p ∈ invalidFiles)
    (s : DriverState) (c : List Nat) :
    PutContent s p c = .error (.invalidPath s.name p) ∧
    GetContent s p = .error (.invalidPath s.name p) ∧
    Stat s p = .error (.invalidPath s.name p) ∧
    hasSub s.name.data (DriverError.invalidPath s.name p).message = true := by
  have hall : invalidFiles.all (fun q => !isValidPath q) = true := by decide
  have hv : isValidPath p = false := by
    simpa using List.all_eq_true.mp hall p hp
  refine ⟨by simp [PutContent, hv], by simp [GetContent, hv], by simp [Stat, hv], ?_⟩
  show hasSub s.name.data (DriverError.message _) = true
  simp only [DriverError.message]
  exact hasSub_of_leads _ _ (by simpa using leadsWith_self_append s.name.data _)

/-- Witness for C2 at the concrete invalid path with a double slash. -/
theorem invalid_paths_rejected_witness :
    PutContent ⟨"inmemory", []⟩ "//bcd" [7] = .error (.invalidPath "inmemory" "//bcd") ∧
    GetContent ⟨"inmemory", []⟩ "//bcd" = .error (.invalidPath "inmemory" "//bcd") ∧
    Stat ⟨"inmemory", []⟩ "//bcd" = .error (.invalidPath "inmemory" "//bcd") ∧
    hasSub "inmemory".data (DriverError.invalidPath "inmemory" "//bcd").message = true :=
  invalid_paths_rejected "//bcd" (by decide) ⟨"inmemory", []⟩ [7]

/-- Claim C3: for every path — whether or not content exists there — ReadStream
and WriteStream at offset -1 fail with an invalid-offset error whose offset
field is -1 and whose path field is the path, with the driver name in the
message; the failing ReadStream yields no reader. -/
theorem negative_offset_rejected (s : DriverState) (p : String) (chunk : List Nat) :
    ReadStream s p (-1) = .error (.invalidOffset s.name p (-1)) ∧
    WriteStream s p (-1) chunk = .error (.invalidOffset s.name p (-1)) ∧
    (DriverError.invalidOffset s.name p (-1)).errOffset = some (-1) ∧
    (DriverError.invalidOffset s.name p (-1)).errPath = p ∧
    hasSub s.name.data (DriverError.invalidOffset s.name p (-1)).message = true ∧
    (∀ rdr : List Nat, ¬ ReadStream s p (-1) = .ok rdr) := by
  have hneg : ((-1 : Int) < 0) := by norm_num
  refine ⟨by simp [ReadStream, hneg], by simp [WriteStream, hneg], rfl, rfl, ?_, ?_⟩
  · simpa [DriverError.errName] using name_in_message (.invalidOffset s.name p (-1))
  · intro rdr h
    simp [ReadStream, hneg] at h

/-- Witness for C3 at a concrete driver state and path. -/
theorem negative_offset_rejected_witness :
    ReadStream ⟨"inmemory", []⟩ "/x" (-1) = .error (.invalidOffset "inmemory" "/x" (-1)) ∧
    WriteStream ⟨"inmemory", []⟩ "/x" (-1) [3] = .error (.invalidOffset "inmemory" "/x" (-1)) ∧
    (DriverError.invalidOffset "inmemory" "/x" (-1)).errOffset = some (-1) ∧
    (DriverError.invalidOffset "inmemory" "/x" (-1)).errPath = "/x" ∧
    hasSub "inmemory".data (DriverError.invalidOffset "inmemory" "/x" (-1)).message = true ∧
    ¬ ReadStream ⟨"inmemory", []⟩ "/x" (-1) = .ok [9] :=
  have h := negative_offset_rejected ⟨"inmemory", []⟩ "/x" [3]
  ⟨h.1, h.2.1, h.2.2.1, h.2.2.2.1, h.2.2.2.2.1, h.2.2.2.2.2 [9]⟩

/-- Writing at an offset strictly beyond the current end appends a zero-filled
gap followed by the chunk. -/
theorem writeAt_of_lt (old chunk : List Nat) (M : Nat) (h : old.length < M) :
    writeAt old M chunk = old ++ List.replicate (M - old.length) 0 ++ chunk := by
  have hlen : (old ++ List.replicate (M - old.length) 0).length = M := by
    simp only [List.length_append, List.length_replicate]
    omega
  show (old ++ List.replicate (M - old.length) 0).take M ++ chunk ++
      (old ++ List.replicate (M - old.length) 0).drop (M + chunk.length) =
    old ++ List.replicate (M - old.length) 0 ++ chunk
  rw [List.take_of_length_le (le_of_eq hlen),
    List.drop_eq_nil_of_le (by omega), List.append_nil]

/-- Claim C4: when a path holds N bytes and a chunk is written at an offset M
strictly greater than N, the result is the old bytes, then M - N zero bytes,
then the chunk; its size — as reported by Stat and as observed by a full
GetContent read — is M plus the chunk length. -/
theorem write_past_end_zero_fill (s : DriverState) (p : String)
    (old chunk : List Nat) (M : Nat)
    (hv : isValidPath p = true)
    (hold : lookupStore s.store p = some old)
    (hM : old.length < M) :
    WriteStream s p (M : Int) chunk =
      .ok (chunk.length,
        withContent s p (old ++ List.replicate (M - old.length) 0 ++ chunk)) ∧
    GetContent (withContent s p (old ++ List.replicate (M - old.length) 0 ++ chunk)) p =
      .ok (old ++ List.replicate (M - old.length) 0 ++ chunk) ∧
    Stat (withContent s p (old ++ List.replicate (M - old.length) 0 ++ chunk)) p =
      .ok ⟨p, M + chunk.length, false⟩ ∧
    (old ++ List.replicate (M - old.length) 0 ++ chunk).length = M + chunk.length := by
  have hlen : (old ++ List.replicate (M - old.length) 0 ++ chunk).length = M + chunk.length := by
    simp only [List.length_append, List.length_replicate]
    omega
  have hnn : ¬ ((M : Int) < 0) := by omega
  refine ⟨?_, ?_, ?_, hlen⟩
  · simp [WriteStream, hnn, hv, hold, writeAt_of_lt old chunk M hM]
  · simp [GetContent, hv, withContent, lookupStore]
  · simp [Stat, hv, withContent, lookupStore, hlen]
    omega

/-- Witness for C4: the concrete scenario writing AAAA at offset 0 and BBBB at
offset 8 on the driver state already holding AAAA. -/
theorem write_past_end_zero_fill_witness :
    WriteStream ⟨"inmemory", [("/f", [65, 65, 65, 65])]⟩ "/f" (8 : Int) [66, 66, 66, 66] =
      .ok (4, withContent ⟨"inmemory", [("/f", [65, 65, 65, 65])]⟩ "/f"
        [65, 65, 65, 65, 0, 0, 0, 0, 66, 66, 66, 66]) ∧
    GetContent (withContent ⟨"inmemory", [("/f", [65, 65, 65, 65])]⟩ "/f"
        [65, 65, 65, 65, 0, 0, 0, 0, 66, 66, 66, 66]) "/f" =
      .ok [65, 65, 65, 65, 0, 0, 0, 0, 66, 66, 66, 66] ∧
    Stat (withContent ⟨"inmemory", [("/f", [65, 65, 65, 65])]⟩ "/f"
        [65, 65, 65, 65, 0, 0, 0, 0, 66, 66, 66, 66]) "/f" =
      .ok ⟨"/f", 12, false⟩ ∧
    ([65, 65, 65, 65] ++ List.replicate (8 - 4) 0 ++ [66, 66, 66, 66] : List Nat).length = 12 :=
  write_past_end_zero_fill ⟨"inmemory", [("/f", [65, 65, 65, 65])]⟩ "/f"
    [65, 65, 65, 65] [66, 66, 66, 66] 8 (by decide) (by decide) (by decide)

/-- A successful GetContent implies the queried path passed validation. -/
theorem get_ok_valid (s : DriverState) (p : String) (c : List Nat)
    (h : GetContent s p = .ok c) : isValidPath p = true := by
  cases hval : isValidPath p with
  | true => rfl
  | false => simp [GetContent, hval] at h

/-- Claim C5: when the source path holds no content and the destination holds
content C, Move fails with a path-not-found error whose message contains the
driver name, and the destination still reads back exactly C afterwards.  The
source path is one of the harness's generated content paths, hence valid. -/
theorem move_missing_source_preserves_dest (s : DriverState) (src dst : String)
    (c : List Nat)
    (hv : isValidPath src = true)
    (hsrc : lookupStore s.store src = none)
    (hdst : GetContent s dst = .ok c) :
    Move s src dst = (.error (.pathNotFound s.name src), s) ∧
    GetContent (Move s src dst).2 dst = .ok c ∧
    hasSub s.name.data (DriverError.pathNotFound s.name src).message = true := by
  have hvd : isValidPath dst = true := get_ok_valid s dst c hdst
  have hmv : Move s src dst = (.error (.pathNotFound s.name src), s) := by
    simp [Move, hv, hvd, hsrc]
  refine ⟨hmv, ?_, ?_⟩
  · rw [hmv]
    exact hdst
  · simpa [DriverError.errName] using name_in_message (.pathNotFound s.name src)

/-- Witness for C5 on a concrete state holding only the destination. -/
theorem move_missing_source_preserves_dest_witness :
    Move ⟨"inmemory", [("/d", [9])]⟩ "/s" "/d" =
      (.error (.pathNotFound "inmemory" "/s"), ⟨"inmemory", [("/d", [9])]⟩) ∧
    GetContent (Move ⟨"inmemory", [("/d", [9])]⟩ "/s" "/d").2 "/d" = .ok [9] ∧
    hasSub "inmemory".data (DriverError.pathNotFound "inmemory" "/s").message = true :=
  move_missing_source_preserves_dest ⟨"inmemory", [("/d", [9])]⟩ "/s" "/d" [9]
    (by decide) (by decide) (by rfl)

/-- Claim C6: for stored content of length L, ReadStream at offset L succeeds
and the first Read on the returned stream yields zero bytes with end-of-stream;
ReadStream at offset L - 1 yields the single final byte — with end-of-stream
signalled together with it, one of the two tolerated behaviours — and every
further Read yields zero bytes with end-of-stream. -/
theorem read_at_end_boundary (s : DriverState) (p : String) (c : List Nat) (L b : Nat)
    (hv : isValidPath p = true)
    (hc : lookupStore s.store p = some c)
    (hL : c.length = L)
    (hpos : 1 ≤ L)
    (hb : 1 ≤ b) :
    ReadStream s p (L : Int) = .ok [] ∧
    streamRead [] b = ([], true, []) ∧
    ReadStream s p ((L : Int) - 1) = .ok (c.drop (L - 1)) ∧
    (c.drop (L - 1)).length = 1 ∧
    streamRead (c.drop (L - 1)) b = (c.drop (L - 1), true, []) := by
  have hnn : ¬ ((L : Int) < 0) := by omega
  have hnn1 : ¬ ((L : Int) - 1 < 0) := by omega
  have ht1 : ((L : Int) - 1).toNat = L - 1 := by omega
  have hlen1 : (c.drop (L - 1)).length = 1 := by
    simp only [List.length_drop]
    omega
  refine ⟨?_, by simp [streamRead], ?_, hlen1, ?_⟩
  · have hdrop : c.drop L = [] := List.drop_eq_nil_of_le (by omega)
    simp [ReadStream, hnn, hv, hc, hdrop]
  · simp [ReadStream, hnn1, hv, hc, ht1]
  · have htake : (c.drop (L - 1)).take b = c.drop (L - 1) :=
      List.take_of_length_le (by omega)
    have hdrop : (c.drop (L - 1)).drop b = [] := List.drop_eq_nil_of_le (by omega)
    simp [streamRead, htake, hdrop]

/-- Witness for C6 on concrete three-byte content read at offsets 3 and 2. -/
theorem read_at_end_boundary_witness :
    ReadStream ⟨"inmemory", [("/f", [1, 2, 3])]⟩ "/f" ((3 : Nat) : Int) = .ok [] ∧
    streamRead [] 32 = ([], true, []) ∧
    ReadStream ⟨"inmemory", [("/f", [1, 2, 3])]⟩ "/f" (((3 : Nat) : Int) - 1) =
      .ok ([1, 2, 3].drop (3 - 1)) ∧
    ([1, 2, 3].drop (3 - 1) : List Nat).length = 1 ∧
    streamRead ([1, 2, 3].drop (3 - 1)) 32 = ([1, 2, 3].drop (3 - 1), true, []) :=
  read_at_end_boundary ⟨"inmemory", [("/f", [1, 2, 3])]⟩ "/f" [1, 2, 3] 3 32
    (by decide) (by decide) (by decide) (by decide) (by decide)

/-- The harness's post-scenario invariant check (TearDownTest, testsuites.go
lines 84-89): it lists the root and aborts the run when anything remains; the
outcome is a function of the returned listing. -/
def tearDownPasses (files : List String) : Bool :=
  if files.length > 0 then false else true

/-- Claim C7: the post-scenario check aborts the run exactly when the root
listing is non-empty; equivalently a scenario passes it exactly when the root
namespace listing is empty. -/
theorem teardown_root_empty (files : List String) :
    (tearDownPasses files = false ↔ files ≠ []) ∧
    (tearDownPasses files = true ↔ files = []) := by
  cases files <;> simp [tearDownPasses]

/-- Witness for C7 on an empty and on a non-empty root listing. -/
theorem teardown_root_empty_witness :
    tearDownPasses [] = true ∧ tearDownPasses ["/leftover"] = false :=
  ⟨(teardown_root_empty []).2.mpr rfl,
   (teardown_root_empty ["/leftover"]).1.mpr (by simp)⟩

/-- The length of an in-bounds overwrite-or-append write: when the write starts
inside the content and reaches at least the old end, the result ends exactly at
offset plus chunk length. -/
theorem writeAt_length_of_bounds (content chunk : List Nat) (off : Nat)
    (h1 : off ≤ content.length) (h2 : content.length ≤ off + chunk.length) :
    (writeAt content off chunk).length = off + chunk.length := by
  show ((content ++ List.replicate (off - content.length) 0).take off ++ chunk ++
      (content ++ List.replicate (off - content.length) 0).drop (off + chunk.length)).length =
    off + chunk.length
  simp only [List.length_append, List.length_take, List.length_drop, List.length_replicate]
  omega

/-- Reading from the write offset after an in-bounds write returns exactly the
written chunk. -/
theorem writeAt_drop_of_bounds (content chunk : List Nat) (off : Nat)
    (h1 : off ≤ content.length) (h2 : content.length ≤ off + chunk.length) :
    (writeAt content off chunk).drop off = chunk := by
  have hz : off - content.length = 0 := by omega
  show ((content ++ List.replicate (off - content.length) 0).take off ++ chunk ++
      (content ++ List.replicate (off - content.length) 0).drop (off + chunk.length)).drop off =
    chunk
  have hdrop : (content ++ List.replicate (off - content.length) 0).drop (off + chunk.length) = [] := by
    apply List.drop_eq_nil_of_le
    simp only [List.length_append, List.length_replicate]
    omega
  rw [hdrop, List.append_nil, hz]
  simp only [List.replicate_zero, List.append_nil]
  have htl : (content.take off).length = off := by
    simp only [List.length_take]
    omega
  have hgen : ∀ (l₁ l₂ : List Nat), l₁.length = off → (l₁ ++ l₂).drop off = l₂ := by
    intro l₁ l₂ hl
    rw [← hl]
    exact List.drop_left l₁ l₂
  exact hgen (content.take off) chunk htl

/-- State of the eventual-consistency loop (TestEventualConsistency,
testsuites.go lines 862-906): the content written so far, the harness's running
offset, and the count of writes whose new size was not yet stat-visible. -/
structure ECState where
  content : List Nat
  offset : Nat
  miss : Nat
  deriving DecidableEq

/-- One iteration of the loop: the chunk is written at the current offset; the
stat-visibility of the new size for this iteration is the boolean `vis`.  On a
visible (hit) iteration the offset advances by the bytes written; on a miss the
miss counter advances.  The written bytes are the same fixed chunk every
iteration, as `randomContents` returns the same bytes for the same length. -/
def ecStep (chunk : List Nat) (vis : Bool) (st : ECState) : ECState :=
  let newContent := writeAt st.content st.offset chunk
  if vis then ⟨newContent, st.offset + chunk.length, st.miss⟩
  else ⟨newContent, st.offset, st.miss + 1⟩

/-- The loop after `n` iterations, starting from an absent file, with the
backend's per-iteration stat visibility abstracted as the oracle `vis`. -/
def ecRun (chunk : List Nat) (vis : Nat → Bool) : Nat → ECState
  | 0 => ⟨[], 0, 0⟩
  | n + 1 => ecStep chunk (vis n) (ecRun chunk vis n)

/-- The bytes an immediate ReadStream at `off` followed by reading to the end
observes. -/
def readBack (content : List Nat) (off : Nat) : List Nat :=
  content.drop off

/-- The harness's hit-branch assertion for one iteration: reading back at the
write's offset yields exactly the just-written chunk. -/
def ecStepAssert (chunk : List Nat) (st : ECState) : Prop :=
  readBack (writeAt st.content st.offset chunk) st.offset = chunk

/-- The harness's final acceptance check: the run fails when every one of the
1024 iterations was a miss (testsuites.go line 905). -/
def ecAccepts (st : ECState) : Bool :=
  if st.miss = 1024 then false else true

/-- Loop invariant: the offset never passes the content end, and the content
never extends more than one chunk past the offset. -/
theorem ecRun_bounds (chunk : List Nat) (vis : Nat → Bool) (n : Nat) :
    (ecRun chunk vis n).offset ≤ (ecRun chunk vis n).content.length ∧
    (ecRun chunk vis n).content.length ≤ (ecRun chunk vis n).offset + chunk.length := by
  induction n with
  | zero => simp [ecRun]
  | succ n ih =>
    obtain ⟨h1, h2⟩ := ih
    have hwl : (writeAt (ecRun chunk vis n).content (ecRun chunk vis n).offset chunk).length =
        (ecRun chunk vis n).offset + chunk.length :=
      writeAt_length_of_bounds _ _ _ h1 h2
    cases hvn : vis n <;> simp [ecRun, ecStep, hvn, hwl]

/-- When no iteration is stat-visible, every iteration increments the miss
counter. -/
theorem ecRun_miss_all (chunk : List Nat) (vis : Nat → Bool) (n : Nat)
    (h : ∀ i, i < n → vis i = false) : (ecRun chunk vis n).miss = n := by
  induction n with
  | zero => rfl
  | succ n ih =>
    have hvn : vis n = false := h n (by omega)
    have ihm : (ecRun chunk vis n).miss = n := ih (fun i hi => h i (by omega))
    simp [ecRun, ecStep, hvn, ihm]

/-- Claim C8: in the resumable-append consistency loop, on every iteration
whose write is immediately stat-visible the immediate read at the write's
offset returns exactly the just-written chunk; and an all-miss run of the 1024
iterations drives the miss counter to 1024, which the harness's final check
rejects as a failure. -/
theorem eventual_consistency_guarantee (chunk : List Nat) (vis : Nat → Bool) :
    (∀ n, vis n = true → ecStepAssert chunk (ecRun chunk vis n)) ∧
    ((∀ i, i < 1024 → vis i = false) →
      (ecRun chunk vis 1024).miss = 1024 ∧ ecAccepts (ecRun chunk vis 1024) = false) := by
  constructor
  · intro n _
    obtain ⟨h1, h2⟩ := ecRun_bounds chunk vis n
    exact writeAt_drop_of_bounds _ _ _ h1 h2
  · intro hall
    have hm : (ecRun chunk vis 1024).miss = 1024 := ecRun_miss_all chunk vis 1024 hall
    exact ⟨hm, by simp [ecAccepts, hm]⟩

/-- Witness for C8: an always-visible run satisfies the hit-branch assertion,
and an all-miss run is rejected by the final check. -/
theorem eventual_consistency_guarantee_witness :
    ecStepAssert [7] (ecRun [7] (fun _ => true) 5) ∧
    (ecRun [7] (fun _ => false) 1024).miss = 1024 ∧
    ecAccepts (ecRun [7] (fun _ => false) 1024) = false :=
  ⟨(eventual_consistency_guarantee [7] (fun _ => true)).1 5 rfl,
   (eventual_consistency_guarantee [7] (fun _ => false)).2 (fun _ _ => rfl)⟩

/-- One Read call of the harness's bounded random reader (randReader.Read,
testsuites.go lines 1158-1170): it fills the supplied buffer of size `b`
completely from the shared random pool (for buffer sizes within the
pre-allocated pool), decrements the countdown `r` by the bytes delivered, and
signals end-of-stream when the countdown is no longer positive afterwards.
Returns the bytes delivered, the end-of-stream flag and the new countdown. -/
def randReaderRead (r : Int) (b : Nat) : Nat × Bool × Int :=
  (b, decide (r - (b : Int) ≤ 0), r - (b : Int))

/-- Driving a reader created by newRandReader through successive Read calls
with the given buffer sizes: the total bytes delivered up to and including the
first call that signals end-of-stream, and whether end-of-stream was reached
within the calls. -/
def runRandReader (r : Int) : List Nat → Nat × Bool
  | [] => (0, false)
  | b :: rest =>
    if r - (b : Int) ≤ 0 then (b, true)
    else ((runRandReader (r - (b : Int)) rest).1 + b, (runRandReader (r - (b : Int)) rest).2)

/-- The iterated run is exactly randReaderRead applied call by call. -/
theorem runRandReader_cons (r : Int) (b : Nat) (rest : List Nat) :
    runRandReader r (b :: rest) =
      if (randReaderRead r b).2.1 then ((randReaderRead r b).1, true)
      else ((runRandReader (randReaderRead r b).2.2 rest).1 + (randReaderRead r b).1,
            (runRandReader (randReaderRead r b).2.2 rest).2) := by
  by_cases h : r - (b : Int) ≤ 0 <;> simp [runRandReader, randReaderRead, h]

/-- Counterexample to claim C9 as stated: the reader produced for n = 5, read
with two 4-byte buffers, signals end-of-stream having delivered 8 bytes in
total, not exactly 5 — the delivered total depends on the buffer sizes. -/
theorem randReader_exact_total_counterexample :
    (runRandReader 5 [4, 4]).2 = true ∧
    (runRandReader 5 [4, 4]).1 = 8 ∧
    ¬ (runRandReader 5 [4, 4]).1 = 5 := by
  decide

/-- Once end-of-stream has been signalled, the delivered total is at least the
requested count. -/
theorem runRandReader_ge (bufs : List Nat) :
    ∀ n : Int, (runRandReader n bufs).2 = true → n ≤ ((runRandReader n bufs).1 : Int) := by
  induction bufs with
  | nil =>
    intro n h
    simp [runRandReader] at h
  | cons b rest ih =>
    intro n h
    by_cases hle : n - (b : Int) ≤ 0
    · simp only [runRandReader, if_pos hle]
      omega
    · have h2 : (runRandReader (n - (b : Int)) rest).2 = true := by
        simpa [runRandReader, hle] using h
      have hge := ih (n - (b : Int)) h2
      simp only [runRandReader, if_neg hle]
      push_cast
      omega

/-- Reading a countdown of (k + 1) * B bytes in k + 1 full blocks of size B
delivers exactly (k + 1) * B bytes and signals end-of-stream on the last call. -/
theorem runRandReader_blocks (B : Nat) (hB : 0 < B) :
    ∀ k : Nat, runRandReader (((k + 1) * B : Nat) : Int) (List.replicate (k + 1) B) =
      ((k + 1) * B, true) := by
  intro k
  induction k with
  | zero =>
    have hc : ((1 * B : Nat) : Int) - (B : Int) ≤ 0 := by push_cast; ring_nf; omega
    simp [List.replicate, runRandReader, hc]
  | succ k ih =>
    have key : (((k + 1 + 1) * B : Nat) : Int) - (B : Int) = (((k + 1) * B : Nat) : Int) := by
      push_cast
      ring
    have hpos : 0 < (k + 1) * B := Nat.mul_pos (Nat.succ_pos k) hB
    have hc : ¬ ((((k + 1 + 1) * B : Nat) : Int) - (B : Int) ≤ 0) := by
      rw [key]
      omega
    rw [List.replicate_succ]
    show (if (((k + 1 + 1) * B : Nat) : Int) - (B : Int) ≤ 0 then (B, true)
      else ((runRandReader ((((k + 1 + 1) * B : Nat) : Int) - (B : Int))
              (List.replicate (k + 1) B)).1 + B,
            (runRandReader ((((k + 1 + 1) * B : Nat) : Int) - (B : Int))
              (List.replicate (k + 1) B)).2)) = ((k + 1 + 1) * B, true)
    rw [if_neg hc, key, ih]
    show ((k + 1) * B + B, true) = ((k + 1 + 1) * B, true)
    have harith : (k + 1) * B + B = (k + 1 + 1) * B := by ring
    rw [harith]

/-- Claim C9 amended: every Read call of the bounded reader delivers its full
buffer; end-of-stream is signalled on the first call at which the running total
reaches the requested count n, so the total delivered is at least n — and it is
exactly n precisely when the buffer sizes tile n, in particular when the stream
is consumed in equal blocks whose size divides n, as in the 5 GiB large-stream
scenario. -/
theorem randReader_total_amended (n : Int) :
    (∀ (r : Int) (b : Nat), (randReaderRead r b).1 = b) ∧
    (∀ bufs : List Nat, (runRandReader n bufs).2 = true → n ≤ ((runRandReader n bufs).1 : Int)) ∧
    (∀ B k : Nat, 0 < B →
      runRandReader (((k + 1) * B : Nat) : Int) (List.replicate (k + 1) B) =
        ((k + 1) * B, true)) :=
  ⟨fun _ _ => rfl, fun bufs => runRandReader_ge bufs n, fun B k hB => runRandReader_blocks B hB k⟩

/-- Witness for the amended C9: full-buffer delivery, an overshooting run that
still delivers at least the requested count, and an exactly-tiled run. -/
theorem randReader_total_amended_witness :
    (randReaderRead 10 4).1 = 4 ∧
    (6 : Int) ≤ ((runRandReader 6 [4, 4]).1 : Int) ∧
    runRandReader (((1 + 1) * 3 : Nat) : Int) (List.replicate (1 + 1) 3) = ((1 + 1) * 3, true) :=
  ⟨(randReader_total_amended 6).1 10 4,
   (randReader_total_amended 6).2.1 [4, 4] (by decide),
   (randReader_total_amended 6).2.2 3 1 (by decide)⟩

/-- The content generator of the harness source (randomContents with the
pre-filled global randomBytes, testsuites.go lines 1140-1151): it returns the
first n bytes of the single shared buffer, whose pseudo-random contents are
abstracted here as the parameter `buf`, fixed for the whole run. -/
def randomContents (buf : List Nat) (n : Nat) : List Nat :=
  buf.take n

/-- Claim C10: randomContents is deterministic within a run — every call
returns the first n bytes of the one shared buffer, so equal-length calls
return identical bytes, and for n ≤ m (within the buffer's capacity) the
n-byte result is an initial segment of the m-byte result, which it reproduces
when the remainder is appended. -/
theorem randomContents_shared_buffer (buf : List Nat) (n m : Nat)
    (hnm : n ≤ m) (_hm : m ≤ buf.length) :
    randomContents buf n = buf.take n ∧
    randomContents buf m = buf.take m ∧
    randomContents buf n = (randomContents buf m).take n ∧
    randomContents buf n ++ (randomContents buf m).drop n = randomContents buf m := by
  have htt : (randomContents buf m).take n = randomContents buf n := by
    show (buf.take m).take n = buf.take n
    rw [List.take_take, Nat.min_eq_left hnm]
  refine ⟨rfl, rfl, htt.symm, ?_⟩
  rw [htt.symm, List.take_append_drop]

/-- Witness for C10 on a concrete three-byte buffer with lengths 1 and 2. -/
theorem randomContents_shared_buffer_witness :
    randomContents [3, 1, 4] 1 = [3, 1, 4].take 1 ∧
    randomContents [3, 1, 4] 2 = [3, 1, 4].take 2 ∧
    randomContents [3, 1, 4] 1 = (randomContents [3, 1, 4] 2).take 1 ∧
    randomContents [3, 1, 4] 1 ++ (randomContents [3, 1, 4] 2).drop 1 = randomContents [3, 1, 4] 2 :=
  randomContents_shared_buffer [3, 1, 4] 1 2 (by decide) (by decide)

end DistDriver
